import Mathlib

/-!
Verification development for the `eth-staking` validator supervisor.

Shallow embedding of the modules under `supervisor/validator_supervisor/`
that the checked properties concern:

* `backup_archive.py` — encrypted, timestamped backup archives
  (`BackupArchive.lock` / `BackupArchive.unlock`);
* `key_ops.py` — password-protected root keys
  (`KeyDescriptor.generate` / `KeyDescriptor.open` / `KeyDescriptor.check_key`);
* `supervisor.py` — `ValidatorSupervisor.load_backup` and
  `ValidatorSupervisor._prioritize_beacon_node`;
* `rpc/server.py` — the per-connection RPC session state machine
  (`RpcServer._Session.run`, `_handle_request`, `_handle_rpc`);
* `subprocess.py` — `SimpleSubprocess._robust_terminate`.

Byte strings are modelled as `List Nat` (a genuine byte has value `< 256`;
hypotheses state this bound where a proof needs it).  The libsodium
primitives used by the Python code (SecretBox, argon2id, keyed Blake2b) are
external libraries; they are modelled as ideal primitives: authentication
tags and hash outputs are injective commitments to their inputs, with the
genuine output lengths, so that collision-freeness (a computational
assumption on the real primitives) holds logically in the model.  All
randomness consumed by the code (nonces, salts) is passed in explicitly.
-/

namespace EthStaking

/-! ## Ideal model of libsodium's SecretBox (used by backup_archive.py)

Sizes are PyNaCl's real constants: `SecretBox.KEY_SIZE = 32`,
`SecretBox.NONCE_SIZE = 24`, `MACBYTES = 16`. -/

def KEY_SIZE : Nat := 32
def NONCE_SIZE : Nat := 24
def MAC_SIZE : Nat := 16

/-- Injective code of a byte sequence: base-257 digits `b + 1` for each byte
`b < 256`.  Used to build ideal authentication tags. -/
def byteSeqCode (l : List Nat) : Nat :=
  l.foldr (fun b acc => acc * 257 + (b + 1)) 0

/-- Modelled: the Poly1305 authenticator of libsodium's SecretBox as an ideal
MAC: a 16-entry tag that commits injectively to key, nonce and message.  The
first three entries hold codes of the inputs; a genuine tag is 16 opaque
bytes. -/
def secretboxTag (key nonce msg : List Nat) : List Nat :=
  byteSeqCode key :: byteSeqCode nonce :: byteSeqCode msg :: List.replicate 13 0

/-- Modelled: `SecretBox(key).encrypt(msg, nonce).ciphertext`, ideal stream
cipher taken as the identity (secrecy is not among the checked properties):
`tag ∥ msg`, with the real length `16 + len(msg)`. -/
def secretboxEncrypt (key nonce msg : List Nat) : List Nat :=
  secretboxTag key nonce msg ++ msg

/-- Modelled: `SecretBox(key).decrypt(ct, nonce)`.  Wrong key size (PyNaCl
raises `nacl.exceptions.TypeError ⊂ CryptoError`), wrong nonce size
(`nacl.exceptions.ValueError ⊂ CryptoError`) and tag verification failure
(`CryptoError`) all yield `none`. -/
def secretboxDecrypt (key nonce ct : List Nat) : Option (List Nat) :=
  if key.length ≠ KEY_SIZE then none
  else if nonce.length ≠ NONCE_SIZE then none
  else if MAC_SIZE ≤ ct.length ∧ ct.take MAC_SIZE = secretboxTag key nonce (ct.drop MAC_SIZE)
    then some (ct.drop MAC_SIZE)
    else none

/-! ## backup_archive.py -/

/-- `BackupArchive.__init__`: an in-memory data buffer plus a timestamp. -/
structure BackupArchive where
  data : List Nat
  timestamp : Nat
deriving DecidableEq

/-- `struct.pack("<I", ts)` (requires `ts < 2^32`, enforced by the caller of
this model). -/
def u32le (ts : Nat) : List Nat :=
  [ts % 256, ts / 256 % 256, ts / 65536 % 256, ts / 16777216 % 256]

/-- `struct.unpack("<I", b)` on a 4-byte string. -/
def unpackU32le (b : List Nat) : Nat :=
  b.getD 0 0 + 256 * b.getD 1 0 + 65536 * b.getD 2 0 + 16777216 * b.getD 3 0

/-- `BackupArchive.lock(key, dst)`: writes `nonce ∥ ciphertext` where the
plaintext is `u32le(timestamp) ∥ data`, and returns the number of bytes
written.  The random nonce PyNaCl draws inside `encrypt` is an explicit
argument.  `none` models the exceptions thrown for an out-of-range timestamp
(`struct.error`) or wrong key/nonce size (`nacl.exceptions` errors). -/
def BackupArchive.lock (A : BackupArchive) (key nonce : List Nat) :
    Option (List Nat × Nat) :=
  if A.timestamp < 2 ^ 32 ∧ key.length = KEY_SIZE ∧ nonce.length = NONCE_SIZE then
    let plaintext := u32le A.timestamp ++ A.data
    let ciphertext := secretboxEncrypt key nonce plaintext
    some (nonce ++ ciphertext, nonce.length + ciphertext.length)
  else none

/-- The ways `BackupArchive.unlock` can fail: `corrupted` is
`LockedArchiveCorrupted` (raised on `nacl.exceptions.CryptoError`);
`structError` is the uncaught `struct.error` from
`struct.unpack("<I", plaintext[:4])` when the authenticated plaintext has
fewer than 4 bytes. -/
inductive UnlockErr
  | corrupted
  | structError
deriving DecidableEq

/-- `BackupArchive.unlock(key, src)`: reads a 24-byte nonce, decrypts the
rest, converts `CryptoError` to `LockedArchiveCorrupted`, then parses the
4-byte little-endian timestamp prefix and keeps the remainder as data. -/
def BackupArchive.unlock (key src : List Nat) : Except UnlockErr BackupArchive :=
  let nonce := src.take NONCE_SIZE
  let ciphertext := src.drop NONCE_SIZE
  match secretboxDecrypt key nonce ciphertext with
  | none => .error .corrupted
  | some plaintext =>
    if plaintext.length < 4 then .error .structError
    else .ok ⟨plaintext.drop 4, unpackU32le (plaintext.take 4)⟩

/-! ### Helper lemmas about the archive codec -/

theorem unpackU32le_u32le {ts : Nat} (h : ts < 2 ^ 32) :
    unpackU32le (u32le ts) = ts := by
  simp only [u32le, unpackU32le, List.getD]
  simp only [List.get?_eq_getElem?, List.getElem?_cons_zero, List.getElem?_cons_succ,
    Option.getD_some]
  omega

theorem take_length_append (l₁ l₂ : List Nat) : (l₁ ++ l₂).take l₁.length = l₁ := by
  simp

theorem drop_length_append (l₁ l₂ : List Nat) : (l₁ ++ l₂).drop l₁.length = l₂ := by
  simp

theorem secretboxTag_length (key nonce msg : List Nat) :
    (secretboxTag key nonce msg).length = MAC_SIZE := by
  simp [secretboxTag, MAC_SIZE]

/-- Decrypting a genuine encryption with the same key and nonce returns the
plaintext. -/
theorem secretboxDecrypt_encrypt {key nonce msg : List Nat}
    (hk : key.length = KEY_SIZE) (hn : nonce.length = NONCE_SIZE) :
    secretboxDecrypt key nonce (secretboxEncrypt key nonce msg) = some msg := by
  have htake : (secretboxEncrypt key nonce msg).take MAC_SIZE = secretboxTag key nonce msg := by
    rw [secretboxEncrypt, ← secretboxTag_length key nonce msg, take_length_append]
  have hdrop : (secretboxEncrypt key nonce msg).drop MAC_SIZE = msg := by
    rw [secretboxEncrypt, ← secretboxTag_length key nonce msg, drop_length_append]
  have hlen : MAC_SIZE ≤ (secretboxEncrypt key nonce msg).length := by
    rw [secretboxEncrypt]
    have := secretboxTag_length key nonce msg
    simp [List.length_append]
    omega
  simp [secretboxDecrypt, hk, hn, htake, hdrop, hlen]

/-- Core round-trip fact: `unlock(K, lock(K, A)) = A`, shared by several
theorems below. -/
theorem unlock_lock {A : BackupArchive} {key nonce out : List Nat} {n : Nat}
    (h : A.lock key nonce = some (out, n)) :
    BackupArchive.unlock key out = .ok A := by
  rw [BackupArchive.lock] at h
  split at h
  case isFalse => exact absurd h (by simp)
  case isTrue hcond =>
    obtain ⟨hts, hk, hn⟩ := hcond
    have hout : out = nonce ++ secretboxEncrypt key nonce (u32le A.timestamp ++ A.data) := by
      simpa using congrArg (fun p => p.1) (Option.some.inj h).symm
    subst hout
    rw [BackupArchive.unlock]
    have htake : (nonce ++ secretboxEncrypt key nonce (u32le A.timestamp ++ A.data)).take
        NONCE_SIZE = nonce := by
      rw [← hn, take_length_append]
    have hdrop : (nonce ++ secretboxEncrypt key nonce (u32le A.timestamp ++ A.data)).drop
        NONCE_SIZE = secretboxEncrypt key nonce (u32le A.timestamp ++ A.data) := by
      rw [← hn, drop_length_append]
    rw [htake, hdrop, secretboxDecrypt_encrypt hk hn]
    have hlen4 : (u32le A.timestamp ++ A.data).length = 4 + A.data.length := by
      simp [u32le]
      omega
    have htake4 : (u32le A.timestamp ++ A.data).take 4 = u32le A.timestamp := by
      have : (4 : Nat) = (u32le A.timestamp).length := by simp [u32le]
      rw [this, take_length_append]
    have hdrop4 : (u32le A.timestamp ++ A.data).drop 4 = A.data := by
      have : (4 : Nat) = (u32le A.timestamp).length := by simp [u32le]
      rw [this, drop_length_append]
    simp only [hlen4, htake4, hdrop4]
    have : ¬ (4 + A.data.length < 4) := by omega
    simp [this, unpackU32le_u32le hts]

theorem byteSeqCode_nil : byteSeqCode [] = 0 := rfl

theorem byteSeqCode_cons (a : Nat) (t : List Nat) :
    byteSeqCode (a :: t) = byteSeqCode t * 257 + (a + 1) := rfl

/-- `byteSeqCode` is injective on genuine byte strings. -/
theorem byteSeqCode_inj : ∀ {l₁ l₂ : List Nat}, (∀ b ∈ l₁, b < 256) → (∀ b ∈ l₂, b < 256) →
    byteSeqCode l₁ = byteSeqCode l₂ → l₁ = l₂ := by
  intro l₁
  induction l₁ with
  | nil =>
    intro l₂ _ h2 heq
    cases l₂ with
    | nil => rfl
    | cons b u =>
      rw [byteSeqCode_nil, byteSeqCode_cons] at heq
      omega
  | cons a t ih =>
    intro l₂ h1 h2 heq
    cases l₂ with
    | nil =>
      rw [byteSeqCode_nil, byteSeqCode_cons] at heq
      omega
    | cons b u =>
      rw [byteSeqCode_cons, byteSeqCode_cons] at heq
      have ha : a < 256 := h1 a (by simp)
      have hb : b < 256 := h2 b (by simp)
      have hab : a = b ∧ byteSeqCode t = byteSeqCode u := by omega
      have ht : t = u :=
        ih (fun x hx => h1 x (by simp [hx])) (fun x hx => h2 x (by simp [hx])) hab.2
      rw [hab.1, ht]

/-- **C1.** For every backup archive `A` (payload bytes plus a timestamp with
`0 ≤ timestamp < 2^32`) and every 32-byte key `K`, `BackupArchive.unlock(K, s)`
applied to the string `s` produced by `A.lock(K, dst)` returns an archive with
the same payload bytes and the same timestamp. -/
theorem backup_lock_unlock_roundtrip (A : BackupArchive) (key nonce : List Nat)
    (hts : A.timestamp < 2 ^ 32) (hk : key.length = KEY_SIZE)
    (hn : nonce.length = NONCE_SIZE) :
    ∃ out n, A.lock key nonce = some (out, n) ∧ BackupArchive.unlock key out = .ok A := by
  have hl : A.lock key nonce =
      some (nonce ++ secretboxEncrypt key nonce (u32le A.timestamp ++ A.data),
        nonce.length + (secretboxEncrypt key nonce (u32le A.timestamp ++ A.data)).length) := by
    rw [BackupArchive.lock, if_pos ⟨hts, hk, hn⟩]
  exact ⟨_, _, hl, unlock_lock hl⟩

theorem backup_lock_unlock_roundtrip_witness :
    ∃ out n,
      BackupArchive.lock ⟨[104, 105], 12345⟩ (List.replicate 32 0) (List.replicate 24 1) =
        some (out, n) ∧
      BackupArchive.unlock (List.replicate 32 0) out = .ok ⟨[104, 105], 12345⟩ :=
  backup_lock_unlock_roundtrip ⟨[104, 105], 12345⟩ (List.replicate 32 0)
    (List.replicate 24 1) (by decide) (by decide) (by decide)

/-- **C2.** Unlocking with any 32-byte key other than the one the archive was
locked with fails with `LockedArchiveCorrupted`: the ideal authenticator tag
commits to the key, so the tag check in `SecretBox.decrypt` fails and
`unlock` converts the `CryptoError` to `LockedArchiveCorrupted`. -/
theorem backup_unlock_wrong_key (A : BackupArchive) (key keyB nonce out : List Nat) (n : Nat)
    (hkB : keyB.length = KEY_SIZE) (hkbytes : ∀ b ∈ key, b < 256)
    (hkBbytes : ∀ b ∈ keyB, b < 256) (hne : key ≠ keyB)
    (hl : A.lock key nonce = some (out, n)) :
    BackupArchive.unlock keyB out = .error .corrupted := by
  rw [BackupArchive.lock] at hl
  split at hl
  case isFalse => exact absurd hl (by simp)
  case isTrue hcond =>
    obtain ⟨hts, hk, hn⟩ := hcond
    have hout : out = nonce ++ secretboxEncrypt key nonce (u32le A.timestamp ++ A.data) := by
      simpa using congrArg (fun p => p.1) (Option.some.inj hl).symm
    subst hout
    rw [BackupArchive.unlock]
    have htake : (nonce ++ secretboxEncrypt key nonce (u32le A.timestamp ++ A.data)).take
        NONCE_SIZE = nonce := by
      rw [← hn, take_length_append]
    have hdrop : (nonce ++ secretboxEncrypt key nonce (u32le A.timestamp ++ A.data)).drop
        NONCE_SIZE = secretboxEncrypt key nonce (u32le A.timestamp ++ A.data) := by
      rw [← hn, drop_length_append]
    rw [htake, hdrop]
    have htagtake : (secretboxEncrypt key nonce (u32le A.timestamp ++ A.data)).take MAC_SIZE =
        secretboxTag key nonce (u32le A.timestamp ++ A.data) := by
      rw [secretboxEncrypt, ← secretboxTag_length key nonce (u32le A.timestamp ++ A.data),
        take_length_append]
    have htagdrop : (secretboxEncrypt key nonce (u32le A.timestamp ++ A.data)).drop MAC_SIZE =
        u32le A.timestamp ++ A.data := by
      rw [secretboxEncrypt, ← secretboxTag_length key nonce (u32le A.timestamp ++ A.data),
        drop_length_append]
    have hdec : secretboxDecrypt keyB nonce
        (secretboxEncrypt key nonce (u32le A.timestamp ++ A.data)) = none := by
      rw [secretboxDecrypt]
      simp only [hkB, hn, htagtake, htagdrop, ne_eq, not_true_eq_false, if_false]
      have hcondne : ¬ (MAC_SIZE ≤ (secretboxEncrypt key nonce
            (u32le A.timestamp ++ A.data)).length ∧
          secretboxTag key nonce (u32le A.timestamp ++ A.data) =
            secretboxTag keyB nonce (u32le A.timestamp ++ A.data)) := by
        rintro ⟨-, hcontra⟩
        have hcode : byteSeqCode key = byteSeqCode keyB := by
          simpa [secretboxTag] using congrArg (fun l => l.headD 0) hcontra
        exact hne (byteSeqCode_inj hkbytes hkBbytes hcode)
      rw [if_neg hcondne]
    rw [hdec]

theorem backup_unlock_wrong_key_witness :
    (BackupArchive.lock ⟨[7], 5⟩ (List.replicate 32 0) (List.replicate 24 1) =
      some (List.replicate 24 1 ++
        secretboxEncrypt (List.replicate 32 0) (List.replicate 24 1) (u32le 5 ++ [7]), 45)) ∧
    BackupArchive.unlock (2 :: List.replicate 31 0)
      (List.replicate 24 1 ++
        secretboxEncrypt (List.replicate 32 0) (List.replicate 24 1) (u32le 5 ++ [7])) =
      .error .corrupted :=
  ⟨by decide,
   backup_unlock_wrong_key ⟨[7], 5⟩ (List.replicate 32 0) (2 :: List.replicate 31 0)
    (List.replicate 24 1) _ 45 (by decide) (by decide) (by decide) (by decide) (by decide)⟩

/-- **C8 (amended).** `BackupArchive.unlock(K, src)` fails with
`LockedArchiveCorrupted` exactly when `SecretBox` decryption fails — in
particular for every truncated input (shorter than nonce plus MAC); but an
input that decrypts to an authenticated plaintext of fewer than 4 bytes makes
`struct.unpack` raise an uncaught `struct.error` instead, and `unlock` never
inspects the tar payload at all (every locked payload, well-formed tar or
not, unlocks successfully; a malformed tar only surfaces later in
`BackupArchive.unpack`). -/
theorem unlock_failure_modes (key src : List Nat) :
    (BackupArchive.unlock key src = .error .corrupted ↔
      secretboxDecrypt key (src.take NONCE_SIZE) (src.drop NONCE_SIZE) = none)
    ∧ (src.length < NONCE_SIZE + MAC_SIZE →
        BackupArchive.unlock key src = .error .corrupted)
    ∧ (∀ pt, secretboxDecrypt key (src.take NONCE_SIZE) (src.drop NONCE_SIZE) = some pt →
        (pt.length < 4 → BackupArchive.unlock key src = .error .structError)
        ∧ (4 ≤ pt.length →
            BackupArchive.unlock key src = .ok ⟨pt.drop 4, unpackU32le (pt.take 4)⟩))
    ∧ (∀ (A : BackupArchive) (nonce out : List Nat) (n : Nat),
        A.lock key nonce = some (out, n) → BackupArchive.unlock key out = .ok A) := by
  refine ⟨?_, ?_, ?_, fun A nonce out n hl => unlock_lock hl⟩
  · constructor
    · intro hu
      rcases hdec : secretboxDecrypt key (src.take NONCE_SIZE) (src.drop NONCE_SIZE) with - | pt
      · rfl
      · rw [BackupArchive.unlock] at hu
        rw [hdec] at hu
        by_cases hlt : pt.length < 4 <;> simp [hlt] at hu
    · intro hdec
      rw [BackupArchive.unlock, hdec]
  · intro hshort
    rw [BackupArchive.unlock]
    have hdec : secretboxDecrypt key (src.take NONCE_SIZE) (src.drop NONCE_SIZE) = none := by
      rw [secretboxDecrypt]
      split
      case isTrue => rfl
      case isFalse =>
        split
        case isTrue => rfl
        case isFalse hn =>
          have hdroplen : (src.drop NONCE_SIZE).length = src.length - NONCE_SIZE := by
            simp
          rw [if_neg]
          rintro ⟨hmac, -⟩
          rw [hdroplen] at hmac
          simp only [NONCE_SIZE, MAC_SIZE] at hmac hshort
          omega
    rw [hdec]
  · intro pt hdec
    constructor
    · intro hlt
      simp [BackupArchive.unlock, hdec, hlt]
    · intro hge
      have hnlt : ¬ pt.length < 4 := by omega
      simp [BackupArchive.unlock, hdec, hnlt]

theorem unlock_failure_modes_witness :
    ([] : List Nat).length < NONCE_SIZE + MAC_SIZE ∧
    BackupArchive.unlock (List.replicate 32 0) [] = .error .corrupted ∧
    BackupArchive.unlock (List.replicate 32 0)
      (List.replicate 24 1 ++
        secretboxEncrypt (List.replicate 32 0) (List.replicate 24 1) (u32le 5 ++ [7])) =
      .ok ⟨[7], 5⟩ :=
  ⟨by decide,
   (unlock_failure_modes (List.replicate 32 0) []).2.1 (by decide),
   (unlock_failure_modes (List.replicate 32 0)
      (List.replicate 24 1 ++
        secretboxEncrypt (List.replicate 32 0) (List.replicate 24 1)
          (u32le 5 ++ [7]))).2.2.2 ⟨[7], 5⟩ (List.replicate 24 1) _ 45 (by decide)⟩

/-- **C8 counterexample.** A syntactically complete ciphertext sealed under
the right key whose authenticated plaintext is empty: decryption succeeds,
and `unlock` then fails with an uncaught `struct.error`
(`struct.unpack("<I", plaintext[:4])` on fewer than 4 bytes), not with
`LockedArchiveCorrupted` — refuting "unlock fails only with the
corrupt-archive error". -/
theorem unlock_struct_error_counterexample :
    BackupArchive.unlock (List.replicate 32 0)
      (List.replicate 24 0 ++
        secretboxEncrypt (List.replicate 32 0) (List.replicate 24 0) []) =
      .error .structError ∧ (UnlockErr.structError ≠ UnlockErr.corrupted) :=
  ⟨rfl, by decide⟩

/-! ## key_ops.py

Real PyNaCl/libsodium constants: `argon2id.SALTBYTES = 16`,
`BLAKE2B_BYTES = 32` (so `KeyDescriptor.CHECKSUM_SIZE = 32`),
`RootKey.SIZE = 16`, `argon2id.OPSLIMIT_SENSITIVE = 4`,
`argon2id.MEMLIMIT_SENSITIVE = 1073741824`, `argon2id.OPSLIMIT_MIN = 1`,
`argon2id.MEMLIMIT_MIN = 8192`. -/

def SALTBYTES : Nat := 16
def CHECKSUM_SIZE : Nat := 32
def ROOT_KEY_SIZE : Nat := 16
def OPSLIMIT_SENSITIVE : Nat := 4
def MEMLIMIT_SENSITIVE : Nat := 1073741824
def OPSLIMIT_MIN : Nat := 1
def MEMLIMIT_MIN : Nat := 8192

/-- Injective code of an arbitrary sequence of naturals (model byte string),
built from the pairing function. -/
def natSeqCode (l : List Nat) : Nat :=
  l.foldr (fun a acc => Nat.pair a acc + 1) 0

/-- Injective code of a string; models the UTF-8 `password.encode()`
(distinct strings have distinct encodings). -/
def strCode (s : String) : Nat :=
  natSeqCode (s.data.map Char.toNat)

/-- Modelled: libsodium's `argon2id.kdf(size, password, salt, opslimit,
memlimit)` as an ideal password-hash: an output of length `size` committing
injectively to the password (and to salt and work parameters);
collision-freeness of the real Argon2id is idealized. -/
def kdf (size : Nat) (password : String) (salt : List Nat)
    (opslimit memlimit : Nat) : List Nat :=
  strCode password :: natSeqCode salt :: opslimit :: memlimit ::
    List.replicate (size - 4) 0

/-- Modelled: `KeyDescriptor._checksum(key_data)`, i.e. keyed Blake2b of the
empty string under `key_data` with the `KEY_CHECKSUM_PERSON` personalization
and the default 32-byte digest, as an ideal keyed-hash commitment injective
in `key_data`. -/
def checksumFn (key_data : List Nat) : List Nat :=
  List.replicate 31 0 ++ [natSeqCode key_data]

/-- `RootKey`: a secret root key held in memory. -/
structure RootKey where
  data : List Nat
deriving DecidableEq

/-- `KeyDescriptor`: public commitment `{algo, salt, checksum}` to a root
key. -/
structure KeyDescriptor where
  algo : String
  salt : List Nat
  checksum : List Nat
deriving DecidableEq

/-- Errors of `KeyDescriptor.open`: `InvalidKeyDescriptor` and
`IncorrectPassword`. -/
inductive OpenErr
  | invalidKeyDescriptor
  | incorrectPassword
deriving DecidableEq

/-- The `algo → (opslimit, memlimit)` if/elif chain at the top of
`KeyDescriptor.open`; `none` is the `InvalidKeyDescriptor("algo must be one
of ...")` branch. -/
def openParams (algo : String) : Option (Nat × Nat) :=
  if algo = "argon2id" then some (OPSLIMIT_SENSITIVE, MEMLIMIT_SENSITIVE)
  else if algo = "argon2id_weak" then some (OPSLIMIT_MIN, MEMLIMIT_MIN)
  else none

/-- The identical if/elif chain at the top of `KeyDescriptor.generate`;
`none` is the `ValueError` branch. -/
def generateParams (algo : String) : Option (Nat × Nat) :=
  if algo = "argon2id" then some (OPSLIMIT_SENSITIVE, MEMLIMIT_SENSITIVE)
  else if algo = "argon2id_weak" then some (OPSLIMIT_MIN, MEMLIMIT_MIN)
  else none

/-- `KeyDescriptor.check_key`: compares the stored checksum with the checksum
of the candidate key (`secrets.compare_digest`, i.e. equality computed in
constant time) and wraps the key on success. -/
def KeyDescriptor.check_key (d : KeyDescriptor) (key_data : List Nat) : Option RootKey :=
  if d.checksum = checksumFn key_data then some ⟨key_data⟩ else none

/-- `KeyDescriptor.open`, parametrized by the key-derivation function so that
"no key derivation is attempted" for a malformed descriptor is expressible as
independence from `kdfFn`.  (`open` is a Lean keyword, hence `openWith` /
`openDesc`.) -/
def KeyDescriptor.openWith (kdfFn : Nat → String → List Nat → Nat → Nat → List Nat)
    (d : KeyDescriptor) (password : String) : Except OpenErr RootKey :=
  match openParams d.algo with
  | none => .error .invalidKeyDescriptor
  | some (opslimit, memlimit) =>
    if d.salt.length ≠ SALTBYTES then .error .invalidKeyDescriptor
    else if d.checksum.length ≠ CHECKSUM_SIZE then .error .invalidKeyDescriptor
    else
      match d.check_key (kdfFn ROOT_KEY_SIZE password d.salt opslimit memlimit) with
      | none => .error .incorrectPassword
      | some root_key => .ok root_key

/-- `KeyDescriptor.open(password)`. -/
def KeyDescriptor.openDesc (d : KeyDescriptor) (password : String) :
    Except OpenErr RootKey :=
  d.openWith kdf password

/-- `KeyDescriptor.generate(password, algo)`: the random salt PyNaCl draws
via `nacl.utils.random(argon2id.SALTBYTES)` is an explicit argument; `none`
models the `ValueError` on an unsupported algo. -/
def KeyDescriptor.generate (password : String) (algo : String) (salt : List Nat) :
    Option (KeyDescriptor × RootKey) :=
  match generateParams algo with
  | none => none
  | some (opslimit, memlimit) =>
    let key_data := kdf ROOT_KEY_SIZE password salt opslimit memlimit
    some (⟨algo, salt, checksumFn key_data⟩, ⟨key_data⟩)

/-! ### Helper lemmas about key_ops -/

theorem natSeqCode_inj : ∀ {l₁ l₂ : List Nat}, natSeqCode l₁ = natSeqCode l₂ → l₁ = l₂ := by
  intro l₁
  induction l₁ with
  | nil =>
    intro l₂ heq
    cases l₂ with
    | nil => rfl
    | cons b u => exact absurd heq.symm (Nat.succ_ne_zero _)
  | cons a t ih =>
    intro l₂ heq
    cases l₂ with
    | nil => exact absurd heq (Nat.succ_ne_zero _)
    | cons b u =>
      have hpair : Nat.pair a (natSeqCode t) = Nat.pair b (natSeqCode u) :=
        Nat.succ_injective heq
      obtain ⟨hab, htu⟩ := Nat.pair_eq_pair.mp hpair
      rw [hab, ih htu]

theorem strCode_inj {s t : String} (h : strCode s = strCode t) : s = t := by
  have hdata : s.data.map Char.toNat = t.data.map Char.toNat := natSeqCode_inj h
  have hinj : Function.Injective Char.toNat := fun c d hc =>
    Char.eq_of_val_eq (UInt32.ext hc)
  exact String.ext (List.map_injective_iff.mpr hinj hdata)

theorem checksumFn_inj {k₁ k₂ : List Nat} (h : checksumFn k₁ = checksumFn k₂) :
    k₁ = k₂ := by
  rw [checksumFn, checksumFn] at h
  exact natSeqCode_inj (by simpa using h)

theorem checksumFn_length (k : List Nat) : (checksumFn k).length = CHECKSUM_SIZE := by
  simp [checksumFn, CHECKSUM_SIZE]

theorem kdf_password_inj {size : Nat} {p₁ p₂ : String} {salt : List Nat}
    {opslimit memlimit : Nat}
    (h : kdf size p₁ salt opslimit memlimit = kdf size p₂ salt opslimit memlimit) :
    p₁ = p₂ := by
  rw [kdf, kdf] at h
  exact strCode_inj (List.cons.inj h).1

/-- **C3.** For every password and supported algo, if
`KeyDescriptor.generate(P, algo)` returns `(D, R)` then `D.open(P)` returns
`R`, and for every password different from `P`, `D.open` raises
`IncorrectPassword`. -/
theorem keydesc_generate_open (password algo : String) (salt : List Nat)
    (hsalt : salt.length = SALTBYTES) (D : KeyDescriptor) (R : RootKey)
    (hgen : KeyDescriptor.generate password algo salt = some (D, R)) :
    D.openDesc password = .ok R ∧
      ∀ pB : String, pB ≠ password → D.openDesc pB = .error .incorrectPassword := by
  rw [KeyDescriptor.generate] at hgen
  rcases hp : generateParams algo with - | ⟨opslimit, memlimit⟩
  · rw [hp] at hgen
    exact absurd hgen (by simp)
  rw [hp] at hgen
  have hD : D = ⟨algo, salt, checksumFn (kdf ROOT_KEY_SIZE password salt opslimit memlimit)⟩ := by
    simpa using (congrArg (fun p => p.1) (Option.some.inj hgen)).symm
  have hR : R = ⟨kdf ROOT_KEY_SIZE password salt opslimit memlimit⟩ := by
    simpa using (congrArg (fun p => p.2) (Option.some.inj hgen)).symm
  subst hD
  subst hR
  have hop : openParams algo = some (opslimit, memlimit) := hp
  constructor
  · rw [KeyDescriptor.openDesc, KeyDescriptor.openWith]
    simp only [hop, hsalt, checksumFn_length]
    rw [if_neg (by simp), if_neg (by simp)]
    rw [KeyDescriptor.check_key, if_pos rfl]
  · intro pB hne
    rw [KeyDescriptor.openDesc, KeyDescriptor.openWith]
    simp only [hop, hsalt, checksumFn_length]
    rw [if_neg (by simp), if_neg (by simp)]
    rw [KeyDescriptor.check_key, if_neg]
    intro hcontra
    exact hne (kdf_password_inj (checksumFn_inj hcontra)).symm

theorem keydesc_generate_open_witness :
    KeyDescriptor.openDesc
      ⟨"argon2id_weak", List.replicate 16 0,
        checksumFn (kdf ROOT_KEY_SIZE "a" (List.replicate 16 0) OPSLIMIT_MIN MEMLIMIT_MIN)⟩
      "a" = .ok ⟨kdf ROOT_KEY_SIZE "a" (List.replicate 16 0) OPSLIMIT_MIN MEMLIMIT_MIN⟩ ∧
    KeyDescriptor.openDesc
      ⟨"argon2id_weak", List.replicate 16 0,
        checksumFn (kdf ROOT_KEY_SIZE "a" (List.replicate 16 0) OPSLIMIT_MIN MEMLIMIT_MIN)⟩
      "b" = .error .incorrectPassword :=
  ⟨(keydesc_generate_open "a" "argon2id_weak" (List.replicate 16 0) (by decide) _ _ rfl).1,
   (keydesc_generate_open "a" "argon2id_weak" (List.replicate 16 0) (by decide) _ _ rfl).2
     "b" (by decide)⟩

/-- **C10.** A descriptor whose algo is neither `argon2id` nor
`argon2id_weak`, or whose salt length is not `argon2id.SALTBYTES`, or whose
checksum length is not `CHECKSUM_SIZE`, makes `open` raise
`InvalidKeyDescriptor` for every password and without attempting key
derivation (the result is independent of the KDF); `IncorrectPassword` is
raised only for a well-formed descriptor whose checksum does not match the
checksum of the derived key. -/
theorem keydesc_open_errors (d : KeyDescriptor) (password : String) :
    ((d.algo ≠ "argon2id" ∧ d.algo ≠ "argon2id_weak") ∨ d.salt.length ≠ SALTBYTES ∨
        d.checksum.length ≠ CHECKSUM_SIZE →
      ∀ kdfFn, d.openWith kdfFn password = .error .invalidKeyDescriptor)
    ∧ (d.openDesc password = .error .incorrectPassword →
        (d.algo = "argon2id" ∨ d.algo = "argon2id_weak") ∧ d.salt.length = SALTBYTES ∧
          d.checksum.length = CHECKSUM_SIZE ∧
          ∃ opslimit memlimit, openParams d.algo = some (opslimit, memlimit) ∧
            d.checksum ≠
              checksumFn (kdf ROOT_KEY_SIZE password d.salt opslimit memlimit)) := by
  constructor
  · intro hbad kdfFn
    rw [KeyDescriptor.openWith]
    rcases hp : openParams d.algo with - | ⟨opslimit, memlimit⟩
    · rfl
    have halgo : d.algo = "argon2id" ∨ d.algo = "argon2id_weak" := by
      rw [openParams] at hp
      by_cases h1 : d.algo = "argon2id"
      · exact Or.inl h1
      by_cases h2 : d.algo = "argon2id_weak"
      · exact Or.inr h2
      rw [if_neg h1, if_neg h2] at hp
      exact absurd hp (by simp)
    rcases hbad with ⟨h1, h2⟩ | hsalt | hcheck
    · rcases halgo with h | h
      · exact absurd h h1
      · exact absurd h h2
    · simp only [hp, if_pos hsalt]
    · simp only [hp]
      by_cases hs : d.salt.length ≠ SALTBYTES
      · rw [if_pos hs]
      · rw [if_neg hs, if_pos hcheck]
  · intro h
    rw [KeyDescriptor.openDesc, KeyDescriptor.openWith] at h
    rcases hp : openParams d.algo with - | ⟨opslimit, memlimit⟩
    · simp only [hp] at h
      exact absurd h (by simp)
    simp only [hp] at h
    have halgo : d.algo = "argon2id" ∨ d.algo = "argon2id_weak" := by
      rw [openParams] at hp
      by_cases h1 : d.algo = "argon2id"
      · exact Or.inl h1
      by_cases h2 : d.algo = "argon2id_weak"
      · exact Or.inr h2
      rw [if_neg h1, if_neg h2] at hp
      exact absurd hp (by simp)
    by_cases hs : d.salt.length ≠ SALTBYTES
    · rw [if_pos hs] at h
      exact absurd h (by simp)
    rw [if_neg hs] at h
    by_cases hc : d.checksum.length ≠ CHECKSUM_SIZE
    · rw [if_pos hc] at h
      exact absurd h (by simp)
    rw [if_neg hc] at h
    rw [KeyDescriptor.check_key] at h
    by_cases hck : d.checksum = checksumFn (kdf ROOT_KEY_SIZE password d.salt opslimit memlimit)
    · rw [if_pos hck] at h
      exact absurd h (by simp)
    · exact ⟨halgo, by omega, by omega, opslimit, memlimit, rfl, hck⟩

theorem keydesc_open_errors_witness :
    KeyDescriptor.openWith kdf ⟨"blake3", [], []⟩ "x" = .error .invalidKeyDescriptor ∧
    ((KeyDescriptor.openDesc
        ⟨"argon2id_weak", List.replicate 16 0,
          checksumFn (kdf ROOT_KEY_SIZE "a" (List.replicate 16 0) OPSLIMIT_MIN MEMLIMIT_MIN)⟩
        "b" = .error .incorrectPassword) →
      ("argon2id_weak" = "argon2id" ∨ "argon2id_weak" = "argon2id_weak") ∧
        (List.replicate 16 (0 : Nat)).length = SALTBYTES ∧
        (checksumFn (kdf ROOT_KEY_SIZE "a" (List.replicate 16 0) OPSLIMIT_MIN
          MEMLIMIT_MIN)).length = CHECKSUM_SIZE ∧
        ∃ opslimit memlimit, openParams "argon2id_weak" = some (opslimit, memlimit) ∧
          checksumFn (kdf ROOT_KEY_SIZE "a" (List.replicate 16 0) OPSLIMIT_MIN MEMLIMIT_MIN) ≠
            checksumFn (kdf ROOT_KEY_SIZE "b" (List.replicate 16 0) opslimit memlimit)) :=
  ⟨(keydesc_open_errors ⟨"blake3", [], []⟩ "x").1 (Or.inl ⟨by decide, by decide⟩) kdf,
   (keydesc_open_errors
      ⟨"argon2id_weak", List.replicate 16 0,
        checksumFn (kdf ROOT_KEY_SIZE "a" (List.replicate 16 0) OPSLIMIT_MIN MEMLIMIT_MIN)⟩
      "b").2⟩

/-! ## supervisor.py — beacon node prioritization -/

/-- `BeaconNodePortMap` from `validators/base.py`: the `(host, port)` SSH
identity of a remote node plus the local forwarded ports. -/
structure BeaconNodePortMap where
  host_id : String × Nat
  lighthouse_rpc : Nat
  prysm_http : Nat
  prysm_grpc : Nat
deriving DecidableEq

/-- `ValidatorSupervisor._prioritize_beacon_node(host, port)`: find the first
index whose `host_id` equals `(host, port)` (the `next(...)` over
`enumerate`; `StopIteration` becomes `UnknownNode`, modelled by `none`, with
the list untouched), then `pop` that index and `insert` the entry at the
front. -/
def prioritizeBeaconNode (maps : List BeaconNodePortMap) (host : String) (port : Nat) :
    Option (List BeaconNodePortMap) :=
  match maps.findIdx? (fun port_map => decide (port_map.host_id = (host, port))) with
  | none => none
  | some index =>
    match maps.get? index with
    | none => none
    | some port_map => some (port_map :: maps.eraseIdx index)

/-- **C7.** If some entry of the port-map list has `host_id = (host, port)`,
`_prioritize_beacon_node` moves exactly the first such entry to the front,
keeping every other entry in its relative order (so the result is a
permutation of the input); if no entry matches it raises `UnknownNode`
(`none`) and the list is exactly as it was. -/
theorem prioritize_beacon_node_spec (maps : List BeaconNodePortMap) (host : String)
    (port : Nat) :
    (prioritizeBeaconNode maps host port = none ↔
      ∀ pm ∈ maps, pm.host_id ≠ (host, port))
    ∧ ∀ r, prioritizeBeaconNode maps host port = some r →
        ∃ pre pm post, maps = pre ++ pm :: post ∧
          (∀ q ∈ pre, q.host_id ≠ (host, port)) ∧ pm.host_id = (host, port) ∧
          r = pm :: (pre ++ post) ∧ r.Perm maps := by
  rcases hf : maps.findIdx? (fun port_map => decide (port_map.host_id = (host, port)))
    with - | i
  · have hnone : prioritizeBeaconNode maps host port = none := by
      rw [prioritizeBeaconNode, hf]
    constructor
    · rw [hnone]
      simp only [true_iff]
      intro pm hpm
      simpa using List.findIdx?_eq_none_iff.mp hf pm hpm
    · intro r hr
      rw [hnone] at hr
      exact absurd hr (by simp)
  · obtain ⟨hlen, hpi, hmin⟩ := List.findIdx?_eq_some_iff_getElem.mp hf
    have hget : maps.get? i = some (maps.get ⟨i, hlen⟩) := by
      rw [List.get?_eq_getElem?, List.getElem?_eq_getElem hlen]
      rfl
    have hres : prioritizeBeaconNode maps host port =
        some (maps.get ⟨i, hlen⟩ :: maps.eraseIdx i) := by
      simp only [prioritizeBeaconNode, hf, hget]
    have hmatch : (maps.get ⟨i, hlen⟩).host_id = (host, port) := by simpa using hpi
    have hdecomp : maps.take i ++ maps.get ⟨i, hlen⟩ :: maps.drop (i + 1) = maps := by
      have hd := List.drop_eq_getElem_cons hlen
      rw [show maps[i] = maps.get ⟨i, hlen⟩ from rfl] at hd
      rw [← hd, List.take_append_drop]
    constructor
    · rw [hres]
      constructor
      · intro h
        exact absurd h (by simp)
      · intro hall
        exact absurd hmatch (hall (maps.get ⟨i, hlen⟩) (List.get_mem maps i hlen))
    · intro r hr
      rw [hres] at hr
      have hreq : r = maps.get ⟨i, hlen⟩ :: maps.eraseIdx i := (Option.some.inj hr).symm
      refine ⟨maps.take i, maps.get ⟨i, hlen⟩, maps.drop (i + 1), hdecomp.symm, ?_, hmatch,
        ?_, ?_⟩
      · intro q hq
        obtain ⟨j, hj⟩ := List.mem_iff_getElem?.mp hq
        by_cases hji : j < i
        · rw [List.getElem?_take_of_lt hji] at hj
          obtain ⟨hjlen, heq⟩ := List.getElem?_eq_some_iff.mp hj
          intro hcontra
          refine hmin j hji ?_
          simp only [decide_eq_true_eq]
          rw [heq]
          exact hcontra
        · exfalso
          have hlenle : (maps.take i).length ≤ j := by
            simp only [List.length_take]
            omega
          rw [List.getElem?_eq_none hlenle] at hj
          exact absurd hj (by simp)
      · rw [hreq, List.eraseIdx_eq_take_drop_succ]
      · rw [hreq, List.eraseIdx_eq_take_drop_succ]
        have := @List.perm_middle _ (maps.get ⟨i, hlen⟩) (maps.take i) (maps.drop (i + 1))
        rw [hdecomp] at this
        exact this.symm

/-- Concrete port maps used as witness inputs. -/
def pmA : BeaconNodePortMap := ⟨("a", 1), 10, 11, 12⟩

/-- Concrete port maps used as witness inputs. -/
def pmB : BeaconNodePortMap := ⟨("b", 2), 20, 21, 22⟩

theorem prioritize_beacon_node_witness :
    (prioritizeBeaconNode [pmA, pmB] "c" 3 = none) ∧
    (∃ pre pm post, [pmA, pmB] = pre ++ pm :: post ∧
      (∀ q ∈ pre, q.host_id ≠ ("b", 2)) ∧ pm.host_id = ("b", 2) ∧
      [pmB, pmA] = pm :: (pre ++ post) ∧ List.Perm [pmB, pmA] [pmA, pmB]) :=
  ⟨(prioritize_beacon_node_spec [pmA, pmB] "c" 3).1.mpr (by decide),
   (prioritize_beacon_node_spec [pmA, pmB] "b" 2).2 [pmB, pmA] (by decide)⟩

/-! ## subprocess.py — termination escalation -/

def FIRST_GRACE_PERIOD : Nat := 2
def FINAL_GRACE_PERIOD : Nat := 10

/-- Abstract behaviour of the supervised OS process during the stop
sequence: whether each signal finds the process already gone
(`ProcessLookupError`), and whether the process exits within each grace
period. -/
structure ProcBehavior where
  goneAtFirstTerm : Bool
  exitsInFirstGrace : Bool
  goneAtSecondTerm : Bool
  exitsInSecondGrace : Bool
  goneAtKill : Bool

/-- Externally visible steps of `_robust_terminate`: signals sent, waits
with their caps in seconds (`either_or_interrupt(proc_wait_task,
sleep(cap))` returns as soon as the process exits, so a wait costs at most
its cap), and the final await of the process. -/
inductive Act
  | term
  | wait (secs : Nat)
  | kill
  | awaitExit
deriving DecidableEq

/-- Sending a signal to a process that is already gone raises
`ProcessLookupError`. -/
def sendSignal (gone : Bool) : Except Unit Unit :=
  if gone then .error () else .ok ()

/-- `SimpleSubprocess._robust_terminate(proc, proc_wait_task)` as the list of
steps it performs: `try: _request_terminate except ProcessLookupError:
pass`; wait up to `FIRST_GRACE_PERIOD`; if exited, return; retry
`proc.terminate()` under the same try/except; wait up to
`FINAL_GRACE_PERIOD`; if exited, return; `try: proc.kill() except
ProcessLookupError: log and return`; await `proc_wait_task`.  The result
type is `Except` so that an uncaught `ProcessLookupError` would be visible
as `.error`. -/
def robustTerminate (b : ProcBehavior) : Except Unit (List Act) := do
  match sendSignal b.goneAtFirstTerm with
  | .error _ => pure ()
  | .ok _ => pure ()
  if b.exitsInFirstGrace then
    return [.term, .wait FIRST_GRACE_PERIOD]
  match sendSignal b.goneAtSecondTerm with
  | .error _ => pure ()
  | .ok _ => pure ()
  if b.exitsInSecondGrace then
    return [.term, .wait FIRST_GRACE_PERIOD, .term, .wait FINAL_GRACE_PERIOD]
  match sendSignal b.goneAtKill with
  | .error _ =>
    return [.term, .wait FIRST_GRACE_PERIOD, .term, .wait FINAL_GRACE_PERIOD, .kill]
  | .ok _ => pure ()
  return [.term, .wait FIRST_GRACE_PERIOD, .term, .wait FINAL_GRACE_PERIOD, .kill,
    .awaitExit]

/-- The escalation the spec prescribes, written from its words: graceful
terminate, wait up to 2 s; re-send terminate, wait up to 10 s; kill, await
exit.  The final await is skipped exactly when the kill finds the process
gone. -/
def escalationTrace (b : ProcBehavior) : List Act :=
  [.term, .wait FIRST_GRACE_PERIOD] ++
    if b.exitsInFirstGrace then [] else
      [.term, .wait FINAL_GRACE_PERIOD] ++
        if b.exitsInSecondGrace then [] else
          [.kill] ++ if b.goneAtKill then [] else [.awaitExit]

/-- Total time spent in bounded waits along a trace. -/
def waitTotal (t : List Act) : Nat :=
  (t.map fun a => match a with | .wait secs => secs | _ => 0).sum

/-- **C9.** For every process behaviour — including every combination of
"process already gone" at the signalling steps — `_robust_terminate` returns
normally (each `ProcessLookupError` is tolerated) and performs exactly the
escalation in the order terminate, wait ≤ 2 s, terminate, wait ≤ 10 s, kill,
await exit, truncated at the first step where the process is observed to
have exited; the bounded waits total at most
`FIRST_GRACE_PERIOD + FINAL_GRACE_PERIOD = 12` seconds, after which only the
kill-latency await remains. -/
theorem robust_terminate_escalation (b : ProcBehavior) :
    robustTerminate b = .ok (escalationTrace b) ∧
    waitTotal (escalationTrace b) ≤ FIRST_GRACE_PERIOD + FINAL_GRACE_PERIOD := by
  obtain ⟨g1, e1, g2, e2, g3⟩ := b
  cases g1 <;> cases e1 <;> cases g2 <;> cases e2 <;> cases g3 <;>
    exact ⟨rfl, by decide⟩

/-! ## supervisor.py — load_backup -/

/-- Promotions of a downloaded file to the local backup path that
`load_backup` may perform.  The code calls
`shutil.copy(downloaded_f.name, self._backup_path)`; `rename` is the atomic
rename the spec describes, and is never emitted by the code. -/
inductive FsOp
  | copy (content : List Nat)
  | rename (content : List Nat)
deriving DecidableEq

/-- Outcome of `client.copy_remote_to_local` for one configured remote:
either the download fails or it yields the downloaded bytes. -/
inductive RemoteFetch
  | fail
  | ok (content : List Nat)

/-- State threaded through `load_backup`'s remote loop: the current
candidate (`latest_backup`), the bytes at the local backup path, and the
promotions performed so far. -/
structure LoadState where
  latest : Option BackupArchive
  localContent : Option (List Nat)
  ops : List FsOp
deriving DecidableEq

/-- One iteration of `load_backup`'s `for client in self._ssh_clients` loop:
a failed download is skipped (`continue`); `unlock` is attempted and
`LockedArchiveCorrupted` is logged and skipped; on success, if there is no
candidate yet or the new timestamp is strictly greater
(`latest_backup is None or latest_backup.timestamp < new_backup.timestamp`),
the new archive becomes the candidate and the downloaded file is copied
(`shutil.copy`) onto the local backup path.  An uncaught `struct.error`
from `unlock` propagates out of the loop (`.error`). -/
def processRemote (key : List Nat) (st : LoadState) (f : RemoteFetch) :
    Except Unit LoadState :=
  match f with
  | .fail => .ok st
  | .ok content =>
    match BackupArchive.unlock key content with
    | .error .corrupted => .ok st
    | .error .structError => .error ()
    | .ok new_backup =>
      match st.latest with
      | none => .ok ⟨some new_backup, some content, st.ops ++ [.copy content]⟩
      | some latest_backup =>
        if latest_backup.timestamp < new_backup.timestamp then
          .ok ⟨some new_backup, some content, st.ops ++ [.copy content]⟩
        else .ok st

/-- The initial candidate from the file at the local backup path, if that
file exists: `unlock` under `try/except LockedArchiveCorrupted` (a corrupt
local backup is logged and treated as absent). -/
def loadLocalCandidate (key : List Nat) (localContent : Option (List Nat)) :
    Except Unit (Option BackupArchive) :=
  match localContent with
  | none => .ok none
  | some content =>
    match BackupArchive.unlock key content with
    | .ok archive => .ok (some archive)
    | .error .corrupted => .ok none
    | .error .structError => .error ()

/-- Result of `load_backup`: the returned boolean, the final loop state, and
the archive handed to `unpack` (if any). -/
structure LoadResult where
  returned : Bool
  state : LoadState
  unpacked : Option BackupArchive
deriving DecidableEq

/-- `ValidatorSupervisor.load_backup` after its two guard clauses
(`UnlockRequired` / `ValidatorRunning`, the claim's precondition): build the
candidate from the local file, fold the remote loop over the configured
remotes, then either return `False` with nothing unpacked, or unpack the
candidate into the scratch directory and return `True`. -/
def loadBackup (key : List Nat) (localContent : Option (List Nat))
    (remotes : List RemoteFetch) : Except Unit LoadResult :=
  match loadLocalCandidate key localContent with
  | .error e => .error e
  | .ok latest0 =>
    match remotes.foldlM (processRemote key) (⟨latest0, localContent, []⟩ : LoadState) with
    | .error e => .error e
    | .ok st =>
      match st.latest with
      | none => .ok ⟨false, st, none⟩
      | some latest_backup => .ok ⟨true, st, some latest_backup⟩

/-- **C4 (amended).** During `load_backup` (backup key unlocked, no
validator task running): a remote archive that unlocks successfully replaces
the current candidate iff the candidate is null or the remote timestamp is
strictly greater, and exactly in that case the downloaded file's contents
are copied (`shutil.copy`, not an atomic rename) onto the local backup
path; download failures and corrupt remote archives are skipped; if after
the local file and all remotes no candidate exists, `load_backup` returns
`False` and nothing is unpacked. -/
theorem load_backup_spec (key : List Nat) :
    (∀ st, processRemote key st .fail = .ok st)
    ∧ (∀ st content, BackupArchive.unlock key content = .error .corrupted →
        processRemote key st (.ok content) = .ok st)
    ∧ (∀ st content new_backup, BackupArchive.unlock key content = .ok new_backup →
        ((st.latest = none ∨
            ∃ lb, st.latest = some lb ∧ lb.timestamp < new_backup.timestamp) →
          processRemote key st (.ok content) =
            .ok ⟨some new_backup, some content, st.ops ++ [.copy content]⟩)
        ∧ (∀ lb, st.latest = some lb → ¬ lb.timestamp < new_backup.timestamp →
            processRemote key st (.ok content) = .ok st))
    ∧ (∀ localContent remotes res, loadBackup key localContent remotes = .ok res →
        (res.state.latest = none → res.returned = false ∧ res.unpacked = none)
        ∧ (∀ lb, res.state.latest = some lb →
            res.returned = true ∧ res.unpacked = some lb)) := by
  refine ⟨fun st => rfl, ?_, ?_, ?_⟩
  · intro st content hcorrupt
    simp only [processRemote, hcorrupt]
  · intro st content new_backup hok
    constructor
    · intro hrepl
      rcases hrepl with hnone | ⟨lb, hsome, hlt⟩
      · simp only [processRemote, hok, hnone]
      · simp only [processRemote, hok, hsome, if_pos hlt]
    · intro lb hsome hnlt
      simp only [processRemote, hok, hsome, if_neg hnlt]
  · intro localContent remotes res h
    rw [loadBackup] at h
    split at h
    next e heq => exact absurd h (by simp)
    next latest0 heq =>
      split at h
      next e2 heq2 => exact absurd h (by simp)
      next st heq2 =>
        split at h
        next hst =>
          have hres : res = ⟨false, st, none⟩ := (Except.ok.inj h).symm
          subst hres
          exact ⟨fun _ => ⟨rfl, rfl⟩, fun lb hsome => absurd (hst ▸ hsome) (by simp)⟩
        next lb hst =>
          have hres : res = ⟨true, st, some lb⟩ := (Except.ok.inj h).symm
          subst hres
          refine ⟨fun hnone => absurd (hst ▸ hnone) (by simp), fun lbB hsome => ?_⟩
          have hlb : lb = lbB := by
            have := hst ▸ hsome
            exact Option.some.inj this
          exact ⟨rfl, by rw [hlb]⟩

/-- Concrete locked archive used as a witness input: payload `[7]`,
timestamp `5`, sealed under the all-zero 32-byte key with an all-one
nonce. -/
def lockedSample : List Nat :=
  List.replicate 24 1 ++
    secretboxEncrypt (List.replicate 32 0) (List.replicate 24 1) (u32le 5 ++ [7])

theorem load_backup_spec_witness :
    (processRemote (List.replicate 32 0) ⟨none, none, []⟩ (.ok []) = .ok ⟨none, none, []⟩) ∧
    (processRemote (List.replicate 32 0) ⟨none, none, []⟩ (.ok lockedSample) =
      .ok ⟨some ⟨[7], 5⟩, some lockedSample, [FsOp.copy lockedSample]⟩) ∧
    ((⟨false, ⟨none, none, []⟩, none⟩ : LoadResult).returned = false ∧
      (⟨false, ⟨none, none, []⟩, none⟩ : LoadResult).unpacked = none) :=
  ⟨(load_backup_spec (List.replicate 32 0)).2.1 ⟨none, none, []⟩ [] rfl,
   ((load_backup_spec (List.replicate 32 0)).2.2.1 ⟨none, none, []⟩ lockedSample
      ⟨[7], 5⟩ rfl).1 (Or.inl rfl),
   ((load_backup_spec (List.replicate 32 0)).2.2.2 none [] ⟨false, ⟨none, none, []⟩, none⟩
      rfl).1 rfl⟩

/-- **C4 counterexample.** With no local backup and one remote holding the
only valid archive, `load_backup` promotes the downloaded file with
`shutil.copy`: the operation trace is exactly one copy and contains no
atomic rename of that file, refuting the claim's "promoted to the local
backup path (atomic rename)". -/
theorem load_backup_no_rename_counterexample :
    loadBackup (List.replicate 32 0) none [RemoteFetch.ok lockedSample] =
      .ok ⟨true, ⟨some ⟨[7], 5⟩, some lockedSample, [FsOp.copy lockedSample]⟩,
        some ⟨[7], 5⟩⟩ ∧
    FsOp.rename lockedSample ∉ [FsOp.copy lockedSample] :=
  ⟨rfl, by decide⟩

/-! ## rpc/server.py — session state machine -/

def BEGIN_UNLOCK_RESULT : String := "ENTER PASSPHRASE"

/-- Parameters of an `auth` request as `AuthOp.handle` sees them: either a
shape error (`params` not a two-element `[user, response]` array of
strings, carrying the matching error message), or a user string together
with the outcome of the `user_keys` lookup and of `check_auth_response`
(external keyed-hash crypto modelled by its boolean outcome). -/
inductive AuthParams
  | bad (msg : String)
  | good (user : String) (found : Bool) (respOk : Bool)
deriving DecidableEq

/-- A parsed JSON-RPC request (`rpc/jsonrpc.py`): method, integer id,
params.  Only the `auth` handler inspects params in a way these claims
depend on. -/
structure RpcRequest where
  method : String
  call_id : Nat
  params : AuthParams
deriving DecidableEq

/-- What `json.loads` plus `JsonRpcRequest.from_json` produce for an inbound
line: a JSON parse error, a malformed JSON-RPC frame, or a request.  The
outcome is carried alongside the raw bytes because the password path never
consults it. -/
inductive ParseOutcome
  | jsonError
  | malformedRpc
  | request (req : RpcRequest)
deriving DecidableEq

/-- One inbound line: raw bytes plus parse outcome. -/
structure InLine where
  raw : List Nat
  parsed : ParseOutcome
deriving DecidableEq

/-- Per-session state of `RpcServer._Session`: `ctx.user`, the captured
password line (`self._password`), and whether a password check is armed
(`self._password_check`; only `CheckUnlockOp` is ever queued, so the
`Optional[Type[RpcOperationPasswordCheck]]` is modelled by a `Bool`). -/
structure Session where
  user : Option String
  password : Option (List Nat)
  passwordCheck : Bool
deriving DecidableEq

/-- `_Session.__init__`: unauthenticated, nothing armed, nothing captured. -/
def initSession : Session := ⟨none, none, false⟩

/-- A handler's `RpcResult`: success flag, result payload (modelled by the
strings the claims mention), and the queued password check. -/
structure RpcResultM where
  success : Bool
  result : String
  check_password : Bool
deriving DecidableEq

/-- Observable events of a loop iteration: a JSON-RPC response written to
the socket, an operation-handler invocation (recording `ctx.user` at
dispatch time), or a queued password-check invocation (recording
`ctx.user`, the method, and the captured password bytes). -/
inductive Event
  | reply (isError : Bool) (msg : String)
  | handlerRan (user : Option String) (method : String)
  | passwordRan (user : Option String) (method : String) (password : List Nat)
deriving DecidableEq

/-- The `OPERATIONS` table of `_Session`, as `method ↦ authenticated`
(`RpcOperation.authenticated` defaults to `True`; `GetAuthChallengeOp` and
`AuthOp` override it to `False`).  `none` means the method is not in the
table — in particular `check_unlock` is not: it is reachable only through
the queued password check. -/
def opAuthenticated (method : String) : Option Bool :=
  if method = "get_health" then some true
  else if method = "start_validator" then some true
  else if method = "stop_validator" then some true
  else if method = "connect" then some true
  else if method = "shutdown" then some true
  else if method = "begin_unlock" then some true
  else if method = "get_auth_challenge" then some false
  else if method = "auth" then some false
  else if method = "set_validator_release" then some true
  else none

/-- `operation.handle(self.ctx, request.params)` for the dispatched
operation.  `AuthOp.handle` may set `ctx.user`; `BeginUnlockOp.handle`
returns the `"ENTER PASSPHRASE"` sentinel with `CheckUnlockOp` queued;
every other handler's interaction with the supervisor is external and its
result is abstracted, but the invocation itself is recorded as an event. -/
def runOp (s : Session) (req : RpcRequest) : Session × RpcResultM × List Event :=
  if req.method = "auth" then
    let events := [Event.handlerRan s.user "auth"]
    match req.params with
    | .bad msg => (s, ⟨false, msg, false⟩, events)
    | .good user found respOk =>
      if found = false then (s, ⟨false, "user not found", false⟩, events)
      else if respOk = false then (s, ⟨false, "denied", false⟩, events)
      else ({ s with user := some user }, ⟨true, "accepted", false⟩, events)
  else if req.method = "begin_unlock" then
    (s, ⟨true, BEGIN_UNLOCK_RESULT, true⟩, [Event.handlerRan s.user "begin_unlock"])
  else
    (s, ⟨true, "", false⟩, [Event.handlerRan s.user req.method])

/-- `_Session._handle_rpc`.  If a password check is armed, the captured
password is consumed and both fields cleared, an unexpected method is
refused, and otherwise the queued `check_unlock` handler runs with the
captured bytes and no further authentication gate.  Otherwise the operation
is looked up (unknown methods are refused), the authentication gate is
applied, and the handler is dispatched. -/
def handleRpc (s : Session) (req : RpcRequest) : Session × RpcResultM × List Event :=
  if s.passwordCheck = true then
    let password := s.password.getD []
    let s1 : Session := { s with password := none, passwordCheck := false }
    if req.method ≠ "check_unlock" then
      (s1, ⟨false, "Expected method check_unlock", false⟩, [])
    else
      (s1, ⟨true, "", false⟩, [Event.passwordRan s.user req.method password])
  else
    match opAuthenticated req.method with
    | none => (s, ⟨false, "Unknown JSON-RPC command", false⟩, [])
    | some authenticated =>
      if s.user = none ∧ authenticated = true then
        (s, ⟨false, req.method ++ " requires authentication", false⟩, [])
      else runOp s req

/-- `_Session._handle_request`: a JSON parse error or malformed JSON-RPC
frame is answered immediately — returning early, so the password state is
left untouched; otherwise `_handle_rpc` runs, `self._password_check` is
assigned from the result, and the response is written. -/
def handleRequest (s : Session) (l : InLine) : Session × List Event :=
  match l.parsed with
  | .jsonError => (s, [Event.reply true "Failed to parse request body JSON"])
  | .malformedRpc => (s, [Event.reply true "Received malformed JSON-RPC request"])
  | .request req =>
    let r := handleRpc s req
    ({ r.1 with passwordCheck := r.2.1.check_password },
      r.2.2 ++ [Event.reply (!r.2.1.success) r.2.1.result])

/-- One iteration of `_Session.run` on one inbound line: if a password check
is armed and no password has been captured yet, the line is stored as the
password bytes — it is not parsed and no response is written; otherwise the
line is handled as a request. -/
def sessionStep (s : Session) (l : InLine) : Session × List Event :=
  if s.passwordCheck = true ∧ s.password = none then
    ({ s with password := some l.raw }, [])
  else handleRequest s l

/-- `_Session.run` over an inbound line sequence, accumulating events. -/
def sessionRun (s : Session) : List InLine → Session × List Event
  | [] => (s, [])
  | l :: rest =>
    ((sessionRun (sessionStep s l).1 rest).1,
      (sessionStep s l).2 ++ (sessionRun (sessionStep s l).1 rest).2)

/-- Session states reachable from a fresh connection. -/
def ReachableSession (s : Session) : Prop :=
  ∃ lines : List InLine, (sessionRun initSession lines).1 = s

/-! ### Session invariant: an armed password check implies an authenticated
user, and handler events record a non-empty user. -/

theorem opAuthenticated_false {m : String} {b : Bool} (h : opAuthenticated m = some b)
    (hb : b = false) : m = "get_auth_challenge" ∨ m = "auth" := by
  subst hb
  rw [opAuthenticated] at h
  split_ifs at h with h1 h2 h3 h4 h5 h6 h7 h8 h9 <;>
    first
      | exact absurd (Option.some.inj h) (by decide)
      | exact Or.inl h7
      | exact Or.inr h8
      | exact absurd h (by simp)

theorem runOp_events (s : Session) (req : RpcRequest) :
    (runOp s req).2.2 = [Event.handlerRan s.user req.method] := by
  rw [runOp]
  by_cases hm1 : req.method = "auth"
  · rw [if_pos hm1, hm1]
    rcases hp : req.params with msg | ⟨u, found, respOk⟩
    · rfl
    · dsimp only
      by_cases hf : found = false
      · rw [if_pos hf]
      · rw [if_neg hf]
        by_cases hr : respOk = false
        · rw [if_pos hr]
        · rw [if_neg hr]
  · rw [if_neg hm1]
    by_cases hm2 : req.method = "begin_unlock"
    · rw [if_pos hm2, hm2]
    · rw [if_neg hm2]

theorem runOp_user (s : Session) (req : RpcRequest) :
    (runOp s req).1.user = s.user ∨ ∃ u, (runOp s req).1.user = some u := by
  rw [runOp]
  by_cases hm1 : req.method = "auth"
  · rw [if_pos hm1]
    rcases hp : req.params with msg | ⟨u, found, respOk⟩
    · exact Or.inl rfl
    · dsimp only
      by_cases hf : found = false
      · rw [if_pos hf]
        exact Or.inl rfl
      · rw [if_neg hf]
        by_cases hr : respOk = false
        · rw [if_pos hr]
          exact Or.inl rfl
        · rw [if_neg hr]
          exact Or.inr ⟨u, rfl⟩
  · rw [if_neg hm1]
    by_cases hm2 : req.method = "begin_unlock"
    · rw [if_pos hm2]
      exact Or.inl rfl
    · rw [if_neg hm2]
      exact Or.inl rfl

theorem runOp_check_password (s : Session) (req : RpcRequest)
    (h : (runOp s req).2.1.check_password = true) :
    req.method = "begin_unlock" ∧ (runOp s req).1 = s := by
  rw [runOp] at h ⊢
  by_cases hm1 : req.method = "auth"
  · rw [if_pos hm1] at h
    rcases hp : req.params with msg | ⟨u, found, respOk⟩
    · rw [hp] at h
      exact absurd h (by simp)
    · rw [hp] at h
      dsimp only at h
      by_cases hf : found = false
      · rw [if_pos hf] at h
        exact absurd h (by simp)
      · rw [if_neg hf] at h
        by_cases hr : respOk = false
        · rw [if_pos hr] at h
          exact absurd h (by simp)
        · rw [if_neg hr] at h
          exact absurd h (by simp)
  · rw [if_neg hm1] at h ⊢
    by_cases hm2 : req.method = "begin_unlock"
    · rw [if_pos hm2] at h ⊢
      exact ⟨hm2, rfl⟩
    · rw [if_neg hm2] at h
      exact absurd h (by simp)

/-- Characterization of the `_handle_rpc` branches needed for the dispatch
invariant: the emitted events, and the conditions under which each kind is
emitted. -/
theorem handleRpc_events (s : Session) (req : RpcRequest) :
    (handleRpc s req).2.2 = [] ∨
    ((handleRpc s req).2.2 =
        [Event.passwordRan s.user req.method (s.password.getD [])] ∧
      s.passwordCheck = true) ∨
    ((handleRpc s req).2.2 = [Event.handlerRan s.user req.method] ∧
      s.passwordCheck = false ∧
      ∃ authenticated, opAuthenticated req.method = some authenticated ∧
        ¬(s.user = none ∧ authenticated = true)) := by
  rw [handleRpc]
  by_cases hpc : s.passwordCheck = true
  · rw [if_pos hpc]
    by_cases hm : req.method ≠ "check_unlock"
    · rw [if_pos hm]
      exact Or.inl rfl
    · rw [if_neg hm]
      exact Or.inr (Or.inl ⟨rfl, hpc⟩)
  · rw [if_neg hpc]
    rcases ha : opAuthenticated req.method with - | authenticated
    · exact Or.inl rfl
    · dsimp only
      by_cases hgate : s.user = none ∧ authenticated = true
      · rw [if_pos hgate]
        exact Or.inl rfl
      · rw [if_neg hgate]
        exact Or.inr (Or.inr ⟨runOp_events s req, by simpa using hpc, authenticated,
          rfl, hgate⟩)

theorem handleRpc_arm_user (s : Session) (req : RpcRequest)
    (h : (handleRpc s req).2.1.check_password = true) :
    (handleRpc s req).1.user ≠ none := by
  rw [handleRpc] at h ⊢
  by_cases hpc : s.passwordCheck = true
  · rw [if_pos hpc] at h ⊢
    by_cases hm : req.method ≠ "check_unlock"
    · rw [if_pos hm] at h
      exact absurd h (by simp)
    · rw [if_neg hm] at h
      exact absurd h (by simp)
  · rw [if_neg hpc] at h ⊢
    split at h
    next heq =>
      exact absurd h (by simp)
    next authenticated heq =>
      split at h
      next hgate =>
        exact absurd h (by simp)
      next hgate =>
        rw [if_neg hgate]
        obtain ⟨hbu, hstate⟩ := runOp_check_password s req h
        rw [hstate]
        intro hnone
        apply hgate
        refine ⟨hnone, ?_⟩
        have hba : opAuthenticated req.method = some true := by
          rw [hbu]
          decide
        rw [heq] at hba
        exact Option.some.inj hba

theorem sessionStep_preserves_inv (s : Session) (l : InLine)
    (hInv : s.passwordCheck = true → s.user ≠ none) :
    (sessionStep s l).1.passwordCheck = true → (sessionStep s l).1.user ≠ none := by
  rw [sessionStep]
  by_cases hcap : s.passwordCheck = true ∧ s.password = none
  · rw [if_pos hcap]
    intro _
    exact hInv hcap.1
  · rw [if_neg hcap]
    rw [handleRequest]
    rcases hp : l.parsed with - | - | req
    · exact hInv
    · exact hInv
    · intro hpc
      exact handleRpc_arm_user s req hpc

theorem sessionRun_inv (lines : List InLine) : ∀ s : Session,
    (s.passwordCheck = true → s.user ≠ none) →
    (sessionRun s lines).1.passwordCheck = true → (sessionRun s lines).1.user ≠ none := by
  induction lines with
  | nil => exact fun s h => h
  | cons l rest ih => exact fun s h => ih _ (sessionStep_preserves_inv s l h)

theorem reachable_inv {s : Session} (h : ReachableSession s) :
    s.passwordCheck = true → s.user ≠ none := by
  obtain ⟨lines, hrun⟩ := h
  have hstep := sessionRun_inv lines initSession (fun hc => absurd hc (by decide))
  rw [hrun] at hstep
  exact hstep

/-- **C5.** In every reachable session state, whenever a method other than
`get_auth_challenge` and `auth` is dispatched to its handler — including the
queued `check_unlock` password-check handler — the session's `user` field is
non-empty; and a request for an authenticated method on a session whose
`user` is unset is answered with the error
`"<method> requires authentication"`, no handler runs, and the session state
is unchanged. -/
theorem rpc_requires_authentication (s : Session) (l : InLine)
    (hreach : ReachableSession s) :
    (∀ u m, Event.handlerRan u m ∈ (sessionStep s l).2 →
      m ≠ "get_auth_challenge" → m ≠ "auth" → u ≠ none)
    ∧ (∀ u m pw, Event.passwordRan u m pw ∈ (sessionStep s l).2 → u ≠ none)
    ∧ (∀ req, l.parsed = .request req → s.user = none →
        opAuthenticated req.method = some true →
        sessionStep s l =
          (s, [Event.reply true (req.method ++ " requires authentication")])) := by
  have hInv := reachable_inv hreach
  refine ⟨?_, ?_, ?_⟩
  · intro u m hmem hm1 hm2
    rw [sessionStep] at hmem
    by_cases hcap : s.passwordCheck = true ∧ s.password = none
    · rw [if_pos hcap] at hmem
      simp at hmem
    · rw [if_neg hcap] at hmem
      rw [handleRequest] at hmem
      rcases hp : l.parsed with - | - | req
      · simp only [hp] at hmem
        simp at hmem
      · simp only [hp] at hmem
        simp at hmem
      · simp only [hp] at hmem
        rw [List.mem_append] at hmem
        rcases hmem with hmem | hmem
        · rcases handleRpc_events s req with hev | ⟨hev, hpc⟩ |
            ⟨hev, hpcf, authenticated, ha, hgate⟩
          · rw [hev] at hmem
            simp at hmem
          · rw [hev] at hmem
            simp at hmem
          · rw [hev] at hmem
            simp only [List.mem_singleton] at hmem
            obtain ⟨hu, hmeq⟩ := Event.handlerRan.inj hmem
            by_cases hauth : authenticated = true
            · have husr : s.user ≠ none := fun hnone => hgate ⟨hnone, hauth⟩
              rw [hu]
              exact husr
            · have hfalse : authenticated = false := by
                revert hauth
                cases authenticated <;> simp
              rcases opAuthenticated_false ha hfalse with hgc | hau
              · exact absurd (hmeq.trans hgc) hm1
              · exact absurd (hmeq.trans hau) hm2
        · simp at hmem
  · intro u m pw hmem
    rw [sessionStep] at hmem
    by_cases hcap : s.passwordCheck = true ∧ s.password = none
    · rw [if_pos hcap] at hmem
      simp at hmem
    · rw [if_neg hcap] at hmem
      rw [handleRequest] at hmem
      rcases hp : l.parsed with - | - | req
      · simp only [hp] at hmem
        simp at hmem
      · simp only [hp] at hmem
        simp at hmem
      · simp only [hp] at hmem
        rw [List.mem_append] at hmem
        rcases hmem with hmem | hmem
        · rcases handleRpc_events s req with hev | ⟨hev, hpc⟩ |
            ⟨hev, hpcf, authenticated, ha, hgate⟩
          · rw [hev] at hmem
            simp at hmem
          · rw [hev] at hmem
            simp only [List.mem_singleton] at hmem
            obtain ⟨hu, -, -⟩ := Event.passwordRan.inj hmem
            rw [hu]
            exact hInv hpc
          · rw [hev] at hmem
            simp at hmem
        · simp at hmem
  · intro req hp hnone hauth
    have hpcf : s.passwordCheck = false := by
      rcases hb : s.passwordCheck
      · rfl
      · exact absurd hnone (hInv hb)
    have hrpc : handleRpc s req =
        (s, ⟨false, req.method ++ " requires authentication", false⟩, []) := by
      rw [handleRpc, if_neg (by rw [hpcf]; simp)]
      simp only [hauth]
      rw [if_pos ⟨hnone, by trivial⟩]
    rw [sessionStep, if_neg (by rw [hpcf]; simp)]
    rw [handleRequest]
    rcases hpe : l.parsed with - | - | req2
    · rw [hpe] at hp
      exact absurd hp (by simp)
    · rw [hpe] at hp
      exact absurd hp (by simp)
    · rw [hpe] at hp
      have hreq : req2 = req := by
        have := ParseOutcome.request.inj hp
        exact this
      subst hreq
      dsimp only
      rw [hrpc]
      have hs : ({ s with passwordCheck := false } : Session) = s := by
        rw [← hpcf]
      rw [hs]
      rfl

theorem rpc_requires_authentication_witness :
    sessionStep initSession ⟨[], .request ⟨"get_health", 1, .bad ""⟩⟩ =
      (initSession, [Event.reply true ("get_health" ++ " requires authentication")]) :=
  (rpc_requires_authentication initSession ⟨[], .request ⟨"get_health", 1, .bad ""⟩⟩
    ⟨[], rfl⟩).2.2 ⟨"get_health", 1, .bad ""⟩ rfl rfl (by decide)

/-- **C6.** After the server replies `"ENTER PASSPHRASE"` to an
authenticated `begin_unlock` request, the next inbound line is captured as
the password bytes and is not parsed as JSON-RPC — even when it is a
well-formed JSON-RPC frame (no hypothesis restricts `l1.parsed`) — and no
response is written for it; the JSON-RPC request after that line runs the
queued `check_unlock` password check with the captured bytes exactly when
its method is `check_unlock`, while any other method in that slot gets an
error reply, no handler runs, and the captured password is discarded. -/
theorem rpc_password_side_channel (u : String) (l0 l1 l2 : InLine)
    (req0 req2 : RpcRequest) (h0 : l0.parsed = .request req0)
    (hm0 : req0.method = "begin_unlock") (h2 : l2.parsed = .request req2) :
    sessionStep ⟨some u, none, false⟩ l0 =
      (⟨some u, none, true⟩,
        [Event.handlerRan (some u) "begin_unlock",
          Event.reply false BEGIN_UNLOCK_RESULT])
    ∧ sessionStep ⟨some u, none, true⟩ l1 = (⟨some u, some l1.raw, true⟩, [])
    ∧ (req2.method = "check_unlock" →
        sessionStep ⟨some u, some l1.raw, true⟩ l2 =
          (⟨some u, none, false⟩,
            [Event.passwordRan (some u) "check_unlock" l1.raw,
              Event.reply false ""]))
    ∧ (req2.method ≠ "check_unlock" →
        sessionStep ⟨some u, some l1.raw, true⟩ l2 =
          (⟨some u, none, false⟩,
            [Event.reply true "Expected method check_unlock"])) := by
  refine ⟨?_, ?_, ?_, ?_⟩
  · have hop : opAuthenticated req0.method = some true := by
      rw [hm0]
      decide
    have hrpc : handleRpc ⟨some u, none, false⟩ req0 =
        (⟨some u, none, false⟩, ⟨true, BEGIN_UNLOCK_RESULT, true⟩,
          [Event.handlerRan (some u) "begin_unlock"]) := by
      rw [handleRpc, if_neg (by simp)]
      simp only [hop]
      rw [if_neg (by simp)]
      rw [runOp, if_neg (by rw [hm0]; decide), if_pos hm0]
    rw [sessionStep, if_neg (by simp)]
    rw [handleRequest]
    simp only [h0]
    rw [hrpc]
    rfl
  · rw [sessionStep, if_pos ⟨rfl, rfl⟩]
  · intro hcu
    have hrpc : handleRpc ⟨some u, some l1.raw, true⟩ req2 =
        (⟨some u, none, false⟩, ⟨true, "", false⟩,
          [Event.passwordRan (some u) "check_unlock" l1.raw]) := by
      rw [handleRpc, if_pos rfl]
      rw [if_neg (by simp [hcu])]
      rw [hcu]
      rfl
    rw [sessionStep, if_neg (by simp)]
    rw [handleRequest]
    simp only [h2]
    rw [hrpc]
    rfl
  · intro hncu
    have hrpc : handleRpc ⟨some u, some l1.raw, true⟩ req2 =
        (⟨some u, none, false⟩, ⟨false, "Expected method check_unlock", false⟩, []) := by
      rw [handleRpc, if_pos rfl]
      rw [if_pos hncu]
    rw [sessionStep, if_neg (by simp)]
    rw [handleRequest]
    simp only [h2]
    rw [hrpc]
    rfl

theorem rpc_password_side_channel_witness :
    (sessionStep ⟨some "admin", none, false⟩
        ⟨[1], .request ⟨"begin_unlock", 1, .bad ""⟩⟩ =
      (⟨some "admin", none, true⟩,
        [Event.handlerRan (some "admin") "begin_unlock",
          Event.reply false BEGIN_UNLOCK_RESULT]))
    ∧ (sessionStep ⟨some "admin", none, true⟩
          ⟨[42, 43], .request ⟨"get_health", 2, .bad ""⟩⟩ =
        (⟨some "admin", some [42, 43], true⟩, []))
    ∧ (sessionStep ⟨some "admin", some [42, 43], true⟩
          ⟨[3], .request ⟨"check_unlock", 3, .bad ""⟩⟩ =
        (⟨some "admin", none, false⟩,
          [Event.passwordRan (some "admin") "check_unlock" [42, 43],
            Event.reply false ""]))
    ∧ (sessionStep ⟨some "admin", some [42, 43], true⟩
          ⟨[9], .request ⟨"get_health", 3, .bad ""⟩⟩ =
        (⟨some "admin", none, false⟩,
          [Event.reply true "Expected method check_unlock"])) :=
  ⟨(rpc_password_side_channel "admin" ⟨[1], .request ⟨"begin_unlock", 1, .bad ""⟩⟩
      ⟨[42, 43], .request ⟨"get_health", 2, .bad ""⟩⟩
      ⟨[3], .request ⟨"check_unlock", 3, .bad ""⟩⟩
      ⟨"begin_unlock", 1, .bad ""⟩ ⟨"check_unlock", 3, .bad ""⟩ rfl rfl rfl).1,
   (rpc_password_side_channel "admin" ⟨[1], .request ⟨"begin_unlock", 1, .bad ""⟩⟩
      ⟨[42, 43], .request ⟨"get_health", 2, .bad ""⟩⟩
      ⟨[3], .request ⟨"check_unlock", 3, .bad ""⟩⟩
      ⟨"begin_unlock", 1, .bad ""⟩ ⟨"check_unlock", 3, .bad ""⟩ rfl rfl rfl).2.1,
   (rpc_password_side_channel "admin" ⟨[1], .request ⟨"begin_unlock", 1, .bad ""⟩⟩
      ⟨[42, 43], .request ⟨"get_health", 2, .bad ""⟩⟩
      ⟨[3], .request ⟨"check_unlock", 3, .bad ""⟩⟩
      ⟨"begin_unlock", 1, .bad ""⟩ ⟨"check_unlock", 3, .bad ""⟩ rfl rfl rfl).2.2.1 rfl,
   (rpc_password_side_channel "admin" ⟨[1], .request ⟨"begin_unlock", 1, .bad ""⟩⟩
      ⟨[42, 43], .request ⟨"get_health", 2, .bad ""⟩⟩
      ⟨[9], .request ⟨"get_health", 3, .bad ""⟩⟩
      ⟨"begin_unlock", 1, .bad ""⟩ ⟨"get_health", 3, .bad ""⟩ rfl rfl rfl).2.2.2
     (by decide)⟩

end EthStaking
